import Mathlib

/-!
Verification of the Smart Waste Management HTTP service (src/main.cpp).

The service keeps an in-memory ordered list of `WasteBin` records together
with a counter `g_next_bin_id`, mirrors the list to one JSON file, and
exposes CRUD plus derived read endpoints.  This development shallowly embeds
the request handlers and the persistence helpers:

* JSON documents (nlohmann::json values) become the inductive `Json`; JSON
  numbers are modelled as integers, since the program only reads integers
  (`get<int>`) and writes integers, booleans and strings.  Floating-point
  request bodies are outside the model.
* The pair of globals `g_bins` / `g_next_bin_id` becomes the `Store`
  structure, threaded through the handlers explicitly.
* Wall-clock timestamps (strings produced by `getCurrentTimestamp`) and the
  random number generator of the sensor endpoint are nondeterministic
  inputs, so they are passed to the handler models as parameters.
* File input is modelled one level up from bytes: `none` is an absent file,
  `some none` a file whose contents fail `json::parse`, and `some (some j)`
  a file parsing to the value `j`.  Saving produces the JSON document that
  would be written.
* `std::sort` (used by the /optimize-route handler) guarantees only a
  permutation that is sorted with respect to the comparator; the relative
  order of tied elements is unspecified.  It is therefore modelled by the
  relation `computeRouteRel` rather than by a function.
-/

/-- JSON values as manipulated by the program (nlohmann::json).  Objects are
association lists; the program never builds objects with duplicate keys. -/
inductive Json where
  | null : Json
  | bool (b : Bool) : Json
  | num (n : Int) : Json
  | str (s : String) : Json
  | arr (elems : List Json) : Json
  | obj (fields : List (String × Json)) : Json

/-- Key lookup, as done by `contains` plus `operator[]` / `at` on an
nlohmann::json value: only objects hold keys, every other value has none. -/
def Json.get (j : Json) (key : String) : Option Json :=
  match j with
  | Json.obj fields => (fields.find? (fun p => p.1 == key)).map (fun p => p.2)
  | _ => none

/-- Test `is_string()` of nlohmann::json. -/
def Json.isString : Json → Bool
  | Json.str _ => true
  | _ => false

/-- Test `is_number()` of nlohmann::json, restricted to the integer numbers of
this model. -/
def Json.isNumber : Json → Bool
  | Json.num _ => true
  | _ => false

/-- Test `is_boolean()` of nlohmann::json. -/
def Json.isBool : Json → Bool
  | Json.bool _ => true
  | _ => false

/-- Range-for over an nlohmann::json value (src/main.cpp:114): an array
iterates its elements, an object its mapped values, null is an empty range,
and any other value iterates itself once. -/
def Json.elements : Json → List Json
  | Json.arr xs => xs
  | Json.obj fields => fields.map (fun p => p.2)
  | Json.null => []
  | j => [j]

/-- The `WasteBin` class (src/main.cpp:24-79).  `lastUpdated` keeps the
ISO-8601 timestamp string verbatim. -/
structure WasteBin where
  id : Int
  location : String
  fillLevel : Int
  needsCollection : Bool
  lastUpdated : String
deriving DecidableEq

/-- Model of `WasteBin::toJson` (src/main.cpp:44-52). -/
def WasteBin.toJson (b : WasteBin) : Json :=
  Json.obj [("id", Json.num b.id), ("location", Json.str b.location),
    ("fillLevel", Json.num b.fillLevel),
    ("needsCollection", Json.bool b.needsCollection),
    ("lastUpdated", Json.str b.lastUpdated)]

/-- Model of `WasteBin::fromJson` (src/main.cpp:55-63).  Each `at(...).get<T>()`
throws on a missing key or a wrong type; the thrown exception is modelled
by `none`. -/
def WasteBin.fromJson (j : Json) : Option WasteBin :=
  match j.get "id", j.get "location", j.get "fillLevel",
      j.get "needsCollection", j.get "lastUpdated" with
  | some (Json.num i), some (Json.str loc), some (Json.num fl),
      some (Json.bool nc), some (Json.str lu) =>
    some ⟨i, loc, fl, nc, lu⟩
  | _, _, _, _, _ => none

/-- The global state of the process: `g_bins` and `g_next_bin_id`
(src/main.cpp:82-83). -/
structure Store where
  bins : List WasteBin
  nextId : Int
deriving DecidableEq

/-- Model of `createApiResponse` (src/main.cpp:86-97): `data` is added to the
envelope only when it is not null. -/
def createApiResponse (success : Bool) (message : String) (data : Json) : Json :=
  match data with
  | Json.null => Json.obj [("success", Json.bool success), ("message", Json.str message)]
  | d => Json.obj [("success", Json.bool success), ("message", Json.str message), ("data", d)]

/-- Outcome of one handler invocation: HTTP status, the store after the
request, whether `saveBinsToFile` ran, and the response body. -/
structure HandlerResult where
  status : Nat
  store : Store
  saved : Bool
  body : Json

/-- The loop of `loadBinsFromFile` over the parsed document
(src/main.cpp:114-116) combined with the surrounding try/catch: the first
element `WasteBin::fromJson` throws on aborts the whole load, so the result
is all records or none. -/
def parseBins : List Json → Option (List WasteBin)
  | [] => some []
  | j :: rest =>
    match WasteBin.fromJson j, parseBins rest with
    | some b, some bs => some (b :: bs)
    | _, _ => none

/-- The `std::max_element` scan of `loadBinsFromFile` (src/main.cpp:120-121),
which keeps the running maximum id, replacing it only on strict increase. -/
def maxIdAux : Int → List WasteBin → Int
  | m, [] => m
  | m, b :: rest => maxIdAux (if m < b.id then b.id else m) rest

/-- The counter recomputation of `loadBinsFromFile` (src/main.cpp:119-124):
one past the maximum loaded id, or 1 for an empty load. -/
def nextIdFromBins : List WasteBin → Int
  | [] => 1
  | b :: rest => maxIdAux b.id rest + 1

/-- Model of `loadBinsFromFile` (src/main.cpp:100-131).  The file argument: `none`
is an absent file (the `is_open` check fails), `some none` a file whose
text `json::parse` rejects, `some (some j)` a file parsing to `j`.  Any
exception is caught and leaves the empty store with counter 1. -/
def loadBinsFromFile : Option (Option Json) → Store
  | none => ⟨[], 1⟩
  | some none => ⟨[], 1⟩
  | some (some j) =>
    match parseBins j.elements with
    | some bins => ⟨bins, nextIdFromBins bins⟩
    | none => ⟨[], 1⟩

/-- Model of `saveBinsToFile` (src/main.cpp:134-149), modelled as the JSON document
written to the backing file. -/
def saveBinsToFile (bins : List WasteBin) : Json :=
  Json.arr (bins.map WasteBin.toJson)

/-- The element validity test of the POST /bins loop (src/main.cpp:207):
`contains("location")` and `is_string()` together. -/
def hasLocation (j : Json) : Bool :=
  match j.get "location" with
  | some (Json.str _) => true
  | _ => false

/-- The location extracted by the POST /bins loop (src/main.cpp:213) from a
valid element; `""` on elements the loop rejects before reading it. -/
def locOf (j : Json) : String :=
  match j.get "location" with
  | some (Json.str l) => l
  | _ => ""

/-- The loop of the POST /bins handler (src/main.cpp:205-219).  Each valid
element appends `WasteBin(g_next_bin_id++, location)` to `g_bins` before
the next element is examined; the first invalid element stops the loop with
the mutations so far kept.  Returns the store after the loop, the `created`
vector, and whether the loop ran to completion. -/
def postBinsLoop (s : Store) (now : String) : List Json → Store × List WasteBin × Bool
  | [] => (s, [], true)
  | j :: rest =>
    match j.get "location" with
    | some (Json.str loc) =>
      let nb : WasteBin := ⟨s.nextId, loc, 0, false, now⟩
      let r := postBinsLoop ⟨s.bins ++ [nb], s.nextId + 1⟩ now rest
      (r.1, nb :: r.2.1, r.2.2)
    | _ => (s, [], false)

/-- The POST /bins handler (src/main.cpp:193-244).  `reqBody = none` models
a body `json::parse` rejects (caught as a 400 with no side effects); a
non-array body is wrapped into a one-element array (src/main.cpp:198-202).
On success the store is saved and the created bins are echoed back. -/
def postBins (s : Store) (now : String) (reqBody : Option Json) : HandlerResult :=
  match reqBody with
  | none => ⟨400, s, false, createApiResponse false "Error: parse error" Json.null⟩
  | some j =>
    let elems := match j with
      | Json.arr xs => xs
      | other => [other]
    match postBinsLoop s now elems with
    | (s2, created, true) =>
      ⟨201, s2, true,
        createApiResponse true (toString created.length ++ " bins added successfully")
          (Json.arr (created.map WasteBin.toJson))⟩
    | (s2, _, false) =>
      ⟨400, s2, false,
        createApiResponse false "Each bin must have a location string" Json.null⟩

/-- Model of the `std::find_if` over `g_bins` by id (src/main.cpp:292-294, 320-322):
the first record with the requested id, if any. -/
def findBin (bins : List WasteBin) (binId : Int) : Option WasteBin :=
  bins.find? (fun b => b.id == binId)

/-- In-place mutation through the iterator `find_if` returned: the first
record with the id is replaced by `f` of itself, the rest is untouched. -/
def updateFirst (bins : List WasteBin) (binId : Int) (f : WasteBin → WasteBin) : List WasteBin :=
  match bins with
  | [] => []
  | b :: rest => if b.id = binId then f b :: rest else b :: updateFirst rest binId f

/-- The location block of the PUT handler (src/main.cpp:326-328): applied
only when the key is present with string type. -/
def updLocation (b : WasteBin) (body : Json) : WasteBin :=
  match body.get "location" with
  | some (Json.str l) => { b with location := l }
  | _ => b

/-- The fillLevel block of the PUT handler (src/main.cpp:330-332): applied
only when the key is present with number type, clamped by
`std::max(0, std::min(100, ...))`. -/
def updFill (b : WasteBin) (body : Json) : WasteBin :=
  match body.get "fillLevel" with
  | some (Json.num n) => { b with fillLevel := max 0 (min 100 n) }
  | _ => b

/-- The needsCollection block of the PUT handler (src/main.cpp:334-336):
applied only when the key is present with boolean type. -/
def updNeeds (b : WasteBin) (body : Json) : WasteBin :=
  match body.get "needsCollection" with
  | some (Json.bool v) => { b with needsCollection := v }
  | _ => b

/-- The field updates of the PUT /bins/{id} handler (src/main.cpp:326-339):
the three conditional field blocks in source order, then the unconditional
timestamp refresh. -/
def applyUpdate (b : WasteBin) (body : Json) (now : String) : WasteBin :=
  { updNeeds (updFill (updLocation b body) body) body with lastUpdated := now }

/-- The PUT /bins/{id} handler (src/main.cpp:315-363).  A body rejected by
`json::parse` (`reqBody = none`) is a 400 with no side effects; an absent
id is a 404 with no side effects; otherwise the found record is updated in
place, the store saved, and the updated record echoed back. -/
def putBins (s : Store) (binId : Int) (reqBody : Option Json) (now : String) : HandlerResult :=
  match reqBody with
  | none => ⟨400, s, false, createApiResponse false "Error: parse error" Json.null⟩
  | some body =>
    match findBin s.bins binId with
    | some b =>
      ⟨200, ⟨updateFirst s.bins binId (fun x => applyUpdate x body now), s.nextId⟩, true,
        createApiResponse true
          ("Bin with ID " ++ toString binId ++ " updated successfully")
          (WasteBin.toJson (applyUpdate b body now))⟩
    | none =>
      ⟨404, s, false,
        createApiResponse false ("Bin with ID " ++ toString binId ++ " not found") Json.null⟩

/-- Model of `find_if` plus `erase` of the DELETE handler (src/main.cpp:292-297):
removes the first record with the id, reporting whether one was removed. -/
def eraseFirstBin : List WasteBin → Int → List WasteBin × Bool
  | [], _ => ([], false)
  | b :: rest, binId =>
    if b.id = binId then (rest, true)
    else
      let r := eraseFirstBin rest binId
      (b :: r.1, r.2)

/-- The DELETE /bins/{id} handler (src/main.cpp:289-312). -/
def deleteBins (s : Store) (binId : Int) : HandlerResult :=
  match eraseFirstBin s.bins binId with
  | (newBins, true) =>
    ⟨200, ⟨newBins, s.nextId⟩, true,
      createApiResponse true
        ("Bin with ID " ++ toString binId ++ " deleted successfully") Json.null⟩
  | (_, false) =>
    ⟨404, s, false,
      createApiResponse false ("Bin with ID " ++ toString binId ++ " not found") Json.null⟩

/-- The loop of the sensor handler (src/main.cpp:383-388): the record at
position `i` receives the fresh draw `draw i`, its flag becomes
`fillLevel >= 75`, and its timestamp is refreshed. -/
def sensorUpdate (draw : Nat → Int) (now : String) : Nat → List WasteBin → List WasteBin
  | _, [] => []
  | i, b :: rest =>
    ⟨b.id, b.location, draw i, decide (75 ≤ draw i), now⟩ :: sensorUpdate draw now (i + 1) rest

/-- The POST /bins/collect-sensor-data handler (src/main.cpp:366-396).
`draw i` is the value `distrib(gen)` produced for the i-th record; the
`uniform_int_distribution<>(0, 100)` contract keeps each draw in [0,100]. -/
def collectSensorData (s : Store) (draw : Nat → Int) (now : String) : HandlerResult :=
  match s.bins with
  | [] => ⟨404, s, false, createApiResponse false "No bins available" Json.null⟩
  | _ =>
    let upd := sensorUpdate draw now 0 s.bins
    ⟨200, ⟨upd, s.nextId⟩, true,
      createApiResponse true "Sensor data collected and updated"
        (Json.arr (upd.map WasteBin.toJson))⟩

/-- The filter of the /optimize-route handler (src/main.cpp:402-406):
the records whose `needsCollection` flag is set, in store order. -/
def routeCandidates (bins : List WasteBin) : List WasteBin :=
  bins.filter (fun b => b.needsCollection)

/-- Sortedness with respect to the comparator of src/main.cpp:417-419
(`a.fillLevel > b.fillLevel`): no record is followed by one with a strictly
greater fill level, i.e. fill levels are non-increasing. -/
abbrev sortedByFillDesc (l : List WasteBin) : Prop :=
  List.Pairwise (fun a b => b.fillLevel ≤ a.fillLevel) l

/-- The route computed by the /optimize-route handler: `std::sort`
(src/main.cpp:417-419) guarantees exactly that the output is a permutation
of `toCollect` that is sorted for the comparator; the relative order of
records with equal fill levels is unspecified, so the handler is modelled
by this relation between the store and the possible outputs. -/
abbrev computeRouteRel (bins out : List WasteBin) : Prop :=
  List.Perm out (routeCandidates bins) ∧ sortedByFillDesc out

/-- The bin ids a handler response reports as created: the `id` fields of
the objects in the envelope's `data` array.  Responses without a `data`
array report none. -/
def responseIds (r : HandlerResult) : List Int :=
  match r.body.get "data" with
  | some (Json.arr xs) =>
    xs.filterMap (fun j =>
      match j.get "id" with
      | some (Json.num n) => some n
      | _ => none)
  | _ => []

/-- One client-visible mutation of the store within a process lifetime:
a POST /bins with a single `{location}` object, or a DELETE /bins/{id}. -/
inductive Op where
  | create (loc : String) (now : String) : Op
  | del (binId : Int) : Op

/-- Dispatch of one operation to its handler. -/
def applyOp (s : Store) : Op → HandlerResult
  | Op.create loc now => postBins s now (some (Json.obj [("location", Json.str loc)]))
  | Op.del binId => deleteBins s binId

/-- Run a sequence of operations from a store, collecting the created ids
each response reports, in request order. -/
def runOps : Store → List Op → Store × List Int
  | s, [] => (s, [])
  | s, op :: rest =>
    let r := applyOp s op
    let next := runOps r.store rest
    (next.1, responseIds r ++ next.2)

/-- Modelled from the spec: "assigns the next unused id (current max id in
store + 1, or 1 if empty)" and "the identifier counter is recomputed as
(maximum id among loaded records) + 1, or 1 if the loaded set is empty". -/
def specNextId (bins : List WasteBin) : Int :=
  match (bins.map (fun b => b.id)).max? with
  | none => 1
  | some m => m + 1

/-- The bins the POST /bins loop creates from a list of valid elements when
the store counter starts at `startId`: consecutive ids, fill level 0, flag
false, the shared request timestamp. -/
def mkBins (startId : Int) (now : String) : List Json → List WasteBin
  | [] => []
  | j :: rest => ⟨startId, locOf j, 0, false, now⟩ :: mkBins (startId + 1) now rest

/-- Modelled from the spec: "sorts by fillLevel descending (stable w.r.t.
equal fill levels — ties preserve store insertion order)" — insertion of
one record into an already sorted list, placing it before the first record
whose fill level it reaches, so that among equal fill levels the earlier
record stays first. -/
def specInsertDesc (b : WasteBin) : List WasteBin → List WasteBin
  | [] => [b]
  | c :: rest =>
    if c.fillLevel ≤ b.fillLevel then b :: c :: rest
    else c :: specInsertDesc b rest

/-- Modelled from the spec: the stable descending sort by fill level that
the spec's words for `computeRoute` describe. -/
def specStableSortDesc : List WasteBin → List WasteBin
  | [] => []
  | b :: rest => specInsertDesc b (specStableSortDesc rest)

/-- The fill-level range invariant the spec states for every record. -/
abbrev fillInRange (bins : List WasteBin) : Prop :=
  ∀ b ∈ bins, 0 ≤ b.fillLevel ∧ b.fillLevel ≤ 100

/-- The id/counter invariant of the store: every present id is below the
counter.  `loadBinsFromFile` establishes it and every handler keeps it. -/
abbrev idsBelowCounter (s : Store) : Prop :=
  ∀ b ∈ s.bins, b.id < s.nextId

/-- Serialization then deserialization of one record is the identity. -/
theorem fromJson_toJson (b : WasteBin) :
    WasteBin.fromJson (WasteBin.toJson b) = some b := rfl

/-- Loading the serialized form of a record list recovers the list. -/
theorem parseBins_map_toJson (bins : List WasteBin) :
    parseBins (bins.map WasteBin.toJson) = some bins := by
  induction bins with
  | nil => rfl
  | cons b rest ih => simp [parseBins, fromJson_toJson, ih]

/-- The `std::max_element` scan is a left fold of `max`. -/
theorem maxIdAux_eq_foldl (l : List WasteBin) (m : Int) :
    maxIdAux m l = (l.map (fun b => b.id)).foldl max m := by
  induction l generalizing m with
  | nil => rfl
  | cons b rest ih =>
    have hmax : (if m < b.id then b.id else m) = max m b.id := by
      split <;> omega
    simp [maxIdAux, hmax, ih]

/-- The counter recomputed by `loadBinsFromFile` is the maximum loaded id
plus one, or 1 for an empty load, exactly as the spec words it. -/
theorem nextIdFromBins_eq_spec (bins : List WasteBin) :
    nextIdFromBins bins = specNextId bins := by
  cases bins with
  | nil => rfl
  | cons b rest =>
    simp [nextIdFromBins, specNextId, maxIdAux_eq_foldl, List.max?]

/-- C5: saving a store and loading the resulting document reproduces the
same sequence of records with all five fields (timestamps verbatim), and
recomputes the counter as the maximum loaded id plus 1, or 1 when the
loaded set is empty. -/
theorem C5_save_load_round_trip (bins : List WasteBin) :
    loadBinsFromFile (some (some (saveBinsToFile bins))) = ⟨bins, specNextId bins⟩ := by
  simp [loadBinsFromFile, saveBinsToFile, Json.elements, parseBins_map_toJson,
    nextIdFromBins_eq_spec]

/-- One unparsable element makes the whole load loop fail. -/
theorem parseBins_append_fail (pre : List Json) (bad : Json) (post : List Json)
    (h : WasteBin.fromJson bad = none) :
    parseBins (pre ++ bad :: post) = none := by
  induction pre with
  | nil => simp [parseBins, h]
  | cons j rest ih =>
    cases hj : WasteBin.fromJson j <;> simp [parseBins, hj, ih]

/-- C7: a load from an absent file yields the empty store with counter 1
(not an error); a load from an unparsable file yields the same; and a load
of an array in which any element fails `WasteBin::fromJson` also yields the
empty store with counter 1, with no partial recovery of the elements that
parsed before the failure. -/
theorem C7_load_failure_empty :
    loadBinsFromFile none = ⟨[], 1⟩ ∧
    loadBinsFromFile (some none) = ⟨[], 1⟩ ∧
    ∀ pre bad post, WasteBin.fromJson bad = none →
      loadBinsFromFile (some (some (Json.arr (pre ++ bad :: post)))) = ⟨[], 1⟩ := by
  refine ⟨rfl, rfl, fun pre bad post h => ?_⟩
  simp [loadBinsFromFile, Json.elements, parseBins_append_fail pre bad post h]

/-- Witness for C7: a one-element array whose element lacks every field
loads as the empty store with counter 1. -/
theorem C7_load_failure_empty_witness :
    loadBinsFromFile (some (some (Json.arr
      [WasteBin.toJson ⟨3, "A", 10, false, "t1"⟩, Json.obj []]))) = ⟨[], 1⟩ :=
  C7_load_failure_empty.2.2 [WasteBin.toJson ⟨3, "A", 10, false, "t1"⟩] (Json.obj []) [] rfl

/-- C10: a POST /bins whose body is the empty JSON array answers 201,
creates nothing, leaves the records and the counter unchanged, and carries
an empty array in the envelope's data field. -/
theorem C10_post_empty_array (s : Store) (now : String) :
    (postBins s now (some (Json.arr []))).status = 201 ∧
    (postBins s now (some (Json.arr []))).store = s ∧
    (postBins s now (some (Json.arr []))).body.get "data" = some (Json.arr []) :=
  ⟨rfl, rfl, rfl⟩

/-- A valid POST element's location lookup yields its extracted location. -/
theorem getLocation_of_hasLocation (j : Json) (h : hasLocation j = true) :
    j.get "location" = some (Json.str (locOf j)) := by
  unfold hasLocation at h
  unfold locOf
  cases hj : j.get "location" with
  | none => simp [hj] at h
  | some v => cases v <;> simp_all

/-- The POST /bins loop stopped by an invalid element keeps every record it
created from the elements before it, and the counter stays advanced. -/
theorem postBinsLoop_fail (now : String) (bad : Json) (rest : List Json)
    (hbad : hasLocation bad = false) :
    ∀ (pre : List Json) (s : Store), (∀ j ∈ pre, hasLocation j = true) →
      postBinsLoop s now (pre ++ bad :: rest) =
        (⟨s.bins ++ mkBins s.nextId now pre, s.nextId + (pre.length : Int)⟩,
          mkBins s.nextId now pre, false) := by
  intro pre
  induction pre with
  | nil =>
    intro s _
    unfold hasLocation at hbad
    cases hb : bad.get "location" with
    | none => simp [postBinsLoop, hb, mkBins]
    | some v => cases v <;> simp_all [postBinsLoop, mkBins]
  | cons j pre2 ih =>
    intro s hvalid
    have hj := getLocation_of_hasLocation j (hvalid j (by simp))
    have hrest : ∀ x ∈ pre2, hasLocation x = true := fun x hx => hvalid x (by simp [hx])
    simp only [List.cons_append, postBinsLoop, hj, List.append_eq]
    rw [ih _ hrest]
    simp [mkBins, List.append_assoc]
    omega

/-- Counterexample to C1: posting the array `[{"location":"A"}, {}]` to the
empty store answers 400 yet leaves the store mutated: the bin from the
first, valid element was created and the counter advanced. -/
theorem C1_post_partial_mutation_cex :
    (postBins ⟨[], 1⟩ "t1"
      (some (Json.arr [Json.obj [("location", Json.str "A")], Json.obj []]))).status = 400 ∧
    (postBins ⟨[], 1⟩ "t1"
      (some (Json.arr [Json.obj [("location", Json.str "A")], Json.obj []]))).store ≠ ⟨[], 1⟩ ∧
    (postBins ⟨[], 1⟩ "t1"
      (some (Json.arr [Json.obj [("location", Json.str "A")], Json.obj []]))).store =
      ⟨[⟨1, "A", 0, false, "t1"⟩], 2⟩ :=
  ⟨rfl, by decide, rfl⟩

/-- C1 amended: a POST /bins whose array body has an element lacking a
string location answers 400 and never saves, but the elements before the
first invalid one have already appended their bins to the in-memory store
and advanced the id counter by their number. -/
theorem C1_post_invalid_element (s : Store) (now : String) (pre : List Json)
    (bad : Json) (rest : List Json) (hpre : ∀ j ∈ pre, hasLocation j = true)
    (hbad : hasLocation bad = false) :
    postBins s now (some (Json.arr (pre ++ bad :: rest))) =
      ⟨400, ⟨s.bins ++ mkBins s.nextId now pre, s.nextId + (pre.length : Int)⟩, false,
        createApiResponse false "Each bin must have a location string" Json.null⟩ := by
  simp only [postBins]
  rw [postBinsLoop_fail now bad rest hbad pre s hpre]

/-- Witness for the amended C1 at the counterexample input. -/
theorem C1_post_invalid_element_witness :
    postBins ⟨[], 1⟩ "t1"
        (some (Json.arr [Json.obj [("location", Json.str "A")], Json.obj []])) =
      ⟨400, ⟨[] ++ mkBins 1 "t1" [Json.obj [("location", Json.str "A")]],
          1 + (([Json.obj [("location", Json.str "A")]].length : Nat) : Int)⟩, false,
        createApiResponse false "Each bin must have a location string" Json.null⟩ :=
  C1_post_invalid_element ⟨[], 1⟩ "t1" [Json.obj [("location", Json.str "A")]]
    (Json.obj []) [] (by decide) rfl

/-- C2 amended: create assigns the current value of the process-wide
counter, not a store maximum: posting one `{location}` object answers 201,
appends a record with id `s.nextId`, fill level 0, flag false and the
request timestamp, advances the counter by one, saves, and reports the
created id `s.nextId`. -/
theorem C2_create_assigns_counter (s : Store) (loc now : String) :
    (postBins s now (some (Json.obj [("location", Json.str loc)]))).status = 201 ∧
    (postBins s now (some (Json.obj [("location", Json.str loc)]))).store =
      ⟨s.bins ++ [⟨s.nextId, loc, 0, false, now⟩], s.nextId + 1⟩ ∧
    (postBins s now (some (Json.obj [("location", Json.str loc)]))).saved = true ∧
    responseIds (postBins s now (some (Json.obj [("location", Json.str loc)]))) = [s.nextId] :=
  ⟨rfl, rfl, rfl, rfl⟩

/-- The store reached by create "A", create "B", delete 2: it holds only
the bin with id 1, but its counter is already 3. -/
def c2Store : Store :=
  (applyOp (applyOp (applyOp ⟨[], 1⟩ (Op.create "A" "t1")).store
    (Op.create "B" "t2")).store (Op.del 2)).store

/-- Counterexample to C2: at `c2Store` the create operation assigns id 3,
while the maximum id currently present in the store plus 1 is 2. -/
theorem C2_counter_not_max_cex :
    responseIds (applyOp c2Store (Op.create "C" "t3")) = [3] ∧
    specNextId c2Store.bins = 2 ∧
    responseIds (applyOp c2Store (Op.create "C" "t3")) ≠ [specNextId c2Store.bins] :=
  ⟨rfl, rfl, by decide⟩

/-- Field-by-field behaviour of the location block: only `location` can
change, and only to a string value present under the key. -/
theorem updLocation_spec (b : WasteBin) (body : Json) :
    (updLocation b body).id = b.id ∧
    (updLocation b body).fillLevel = b.fillLevel ∧
    (updLocation b body).needsCollection = b.needsCollection ∧
    (updLocation b body).lastUpdated = b.lastUpdated ∧
    (updLocation b body).location =
      (match body.get "location" with
        | some (Json.str l) => l
        | _ => b.location) := by
  unfold updLocation
  cases h : body.get "location" with
  | none => simp
  | some v => cases v <;> simp

/-- Field-by-field behaviour of the fillLevel block: only `fillLevel` can
change, and only to the clamp of a number present under the key. -/
theorem updFill_spec (b : WasteBin) (body : Json) :
    (updFill b body).id = b.id ∧
    (updFill b body).location = b.location ∧
    (updFill b body).needsCollection = b.needsCollection ∧
    (updFill b body).lastUpdated = b.lastUpdated ∧
    (updFill b body).fillLevel =
      (match body.get "fillLevel" with
        | some (Json.num n) => max 0 (min 100 n)
        | _ => b.fillLevel) := by
  unfold updFill
  cases h : body.get "fillLevel" with
  | none => simp
  | some v => cases v <;> simp

/-- Field-by-field behaviour of the needsCollection block: only the flag
can change, and only to a boolean present under the key. -/
theorem updNeeds_spec (b : WasteBin) (body : Json) :
    (updNeeds b body).id = b.id ∧
    (updNeeds b body).location = b.location ∧
    (updNeeds b body).fillLevel = b.fillLevel ∧
    (updNeeds b body).lastUpdated = b.lastUpdated ∧
    (updNeeds b body).needsCollection =
      (match body.get "needsCollection" with
        | some (Json.bool v) => v
        | _ => b.needsCollection) := by
  unfold updNeeds
  cases h : body.get "needsCollection" with
  | none => simp
  | some v => cases v <;> simp

/-- Closed form for one PUT field-update pass over a record. -/
theorem applyUpdate_spec (b : WasteBin) (body : Json) (now : String) :
    applyUpdate b body now =
      ⟨b.id,
        (match body.get "location" with
          | some (Json.str l) => l
          | _ => b.location),
        (match body.get "fillLevel" with
          | some (Json.num n) => max 0 (min 100 n)
          | _ => b.fillLevel),
        (match body.get "needsCollection" with
          | some (Json.bool v) => v
          | _ => b.needsCollection),
        now⟩ := by
  have h1 := updLocation_spec b body
  have h2 := updFill_spec (updLocation b body) body
  have h3 := updNeeds_spec (updFill (updLocation b body) body) body
  unfold applyUpdate
  simp only [h3.1, h3.2.1, h3.2.2.1, h3.2.2.2.2, h2.1, h2.2.1, h2.2.2.1, h2.2.2.2.2,
    h1.1, h1.2.1, h1.2.2.1, h1.2.2.2.2]

/-- C8: updating an existing record with a body carrying none of the three
recognized fields answers 200, mutates exactly that record in place,
refreshes only its timestamp — to the request time, at or after its
previous timestamp — and leaves id, location, fillLevel and
needsCollection unchanged. -/
theorem C8_empty_update_touches_timestamp (s : Store) (binId : Int) (body : Json)
    (now : String) (b : WasteBin) (hfind : findBin s.bins binId = some b)
    (hloc : body.get "location" = none) (hfill : body.get "fillLevel" = none)
    (hneed : body.get "needsCollection" = none) (hclock : b.lastUpdated ≤ now) :
    (putBins s binId (some body) now).status = 200 ∧
    (putBins s binId (some body) now).store =
      ⟨updateFirst s.bins binId (fun x => applyUpdate x body now), s.nextId⟩ ∧
    applyUpdate b body now = ⟨b.id, b.location, b.fillLevel, b.needsCollection, now⟩ ∧
    b.lastUpdated ≤ (applyUpdate b body now).lastUpdated := by
  have happ : applyUpdate b body now =
      ⟨b.id, b.location, b.fillLevel, b.needsCollection, now⟩ := by
    rw [applyUpdate_spec, hloc, hfill, hneed]
  refine ⟨?_, ?_, happ, ?_⟩
  · simp [putBins, hfind]
  · simp [putBins, hfind]
  · rw [happ]
    exact hclock

/-- Witness for C8: an empty-object body on a store holding one record. -/
theorem C8_empty_update_touches_timestamp_witness :
    (putBins ⟨[⟨1, "Main", 40, false, "t1"⟩], 2⟩ 1 (some (Json.obj [])) "t1").status = 200 ∧
    applyUpdate ⟨1, "Main", 40, false, "t1"⟩ (Json.obj []) "t1" =
      ⟨1, "Main", 40, false, "t1"⟩ := by
  have h := C8_empty_update_touches_timestamp ⟨[⟨1, "Main", 40, false, "t1"⟩], 2⟩ 1
    (Json.obj []) "t1" ⟨1, "Main", 40, false, "t1"⟩ rfl rfl rfl rfl (le_refl _)
  exact ⟨h.1, h.2.2.1⟩

/-- C9: updating an existing record with a body whose recognized fields are
present but with the wrong JSON type still answers 200 and mutates the
record in place; each mistyped field is silently ignored and keeps its
previous value, while the timestamp is still refreshed to the request
time. -/
theorem C9_mistyped_fields_ignored (s : Store) (binId : Int) (body : Json)
    (now : String) (b : WasteBin) (hfind : findBin s.bins binId = some b) :
    (putBins s binId (some body) now).status = 200 ∧
    (putBins s binId (some body) now).store =
      ⟨updateFirst s.bins binId (fun x => applyUpdate x body now), s.nextId⟩ ∧
    (∀ j, body.get "location" = some j → j.isString = false →
      (applyUpdate b body now).location = b.location) ∧
    (∀ j, body.get "fillLevel" = some j → j.isNumber = false →
      (applyUpdate b body now).fillLevel = b.fillLevel) ∧
    (∀ j, body.get "needsCollection" = some j → j.isBool = false →
      (applyUpdate b body now).needsCollection = b.needsCollection) ∧
    (applyUpdate b body now).lastUpdated = now := by
  refine ⟨by simp [putBins, hfind], by simp [putBins, hfind], ?_, ?_, ?_,
    by rw [applyUpdate_spec]⟩
  · intro j hj hty
    rw [applyUpdate_spec, hj]
    cases j <;> simp_all [Json.isString]
  · intro j hj hty
    rw [applyUpdate_spec, hj]
    cases j <;> simp_all [Json.isNumber]
  · intro j hj hty
    rw [applyUpdate_spec, hj]
    cases j <;> simp_all [Json.isBool]

/-- Witness for C9: a body with all three recognized fields mistyped keeps
all three values while refreshing the timestamp. -/
theorem C9_mistyped_fields_ignored_witness :
    (putBins ⟨[⟨1, "Main", 40, false, "t1"⟩], 2⟩ 1
      (some (Json.obj [("location", Json.num 5), ("fillLevel", Json.str "90"),
        ("needsCollection", Json.num 1)])) "t2").status = 200 ∧
    (applyUpdate ⟨1, "Main", 40, false, "t1"⟩
      (Json.obj [("location", Json.num 5), ("fillLevel", Json.str "90"),
        ("needsCollection", Json.num 1)]) "t2").fillLevel = 40 ∧
    (applyUpdate ⟨1, "Main", 40, false, "t1"⟩
      (Json.obj [("location", Json.num 5), ("fillLevel", Json.str "90"),
        ("needsCollection", Json.num 1)]) "t2").location = "Main" ∧
    (applyUpdate ⟨1, "Main", 40, false, "t1"⟩
      (Json.obj [("location", Json.num 5), ("fillLevel", Json.str "90"),
        ("needsCollection", Json.num 1)]) "t2").needsCollection = false := by
  have h := C9_mistyped_fields_ignored ⟨[⟨1, "Main", 40, false, "t1"⟩], 2⟩ 1
    (Json.obj [("location", Json.num 5), ("fillLevel", Json.str "90"),
      ("needsCollection", Json.num 1)]) "t2" ⟨1, "Main", 40, false, "t1"⟩ rfl
  exact ⟨h.1, h.2.2.2.1 (Json.str "90") rfl rfl, h.2.2.1 (Json.num 5) rfl rfl,
    h.2.2.2.2.1 (Json.num 1) rfl rfl⟩

/-- A clamped write lands in [0,100]; an untouched fill level keeps its
range. -/
theorem applyUpdate_range (b : WasteBin) (body : Json) (now : String)
    (hb : 0 ≤ b.fillLevel ∧ b.fillLevel ≤ 100) :
    0 ≤ (applyUpdate b body now).fillLevel ∧ (applyUpdate b body now).fillLevel ≤ 100 := by
  rw [applyUpdate_spec]
  cases h : body.get "fillLevel" with
  | none => simpa using hb
  | some v => cases v <;> simp <;> omega

/-- Every record of an in-place update is an old record or the image of
the old record under the update. -/
theorem mem_updateFirst (bins : List WasteBin) (binId : Int) (f : WasteBin → WasteBin)
    (x : WasteBin) (hx : x ∈ updateFirst bins binId f) :
    x ∈ bins ∨ ∃ y ∈ bins, x = f y := by
  induction bins with
  | nil => simp [updateFirst] at hx
  | cons b rest ih =>
    unfold updateFirst at hx
    by_cases hb : b.id = binId
    · rw [if_pos hb] at hx
      rcases List.mem_cons.mp hx with h | h
      · exact Or.inr ⟨b, List.mem_cons_self b rest, h⟩
      · exact Or.inl (List.mem_cons_of_mem b h)
    · rw [if_neg hb] at hx
      rcases List.mem_cons.mp hx with h | h
      · exact Or.inl (by simp [h])
      · rcases ih h with h2 | ⟨y, hy, hxy⟩
        · exact Or.inl (List.mem_cons_of_mem b h2)
        · exact Or.inr ⟨y, List.mem_cons_of_mem b hy, hxy⟩

/-- Every record after the sensor loop carries one of the drawn values. -/
theorem mem_sensorUpdate (draw : Nat → Int) (now : String) :
    ∀ (i : Nat) (bins : List WasteBin) (x : WasteBin),
      x ∈ sensorUpdate draw now i bins → ∃ k, x.fillLevel = draw k := by
  intro i bins
  induction bins generalizing i with
  | nil => intro x hx; simp [sensorUpdate] at hx
  | cons b rest ih =>
    intro x hx
    unfold sensorUpdate at hx
    rcases List.mem_cons.mp hx with h | h
    · exact ⟨i, by rw [h]⟩
    · exact ih (i + 1) x h

/-- C6: after any PUT (for any input integer fill level, out-of-range ones
being clamped) a store whose fill levels were all in [0,100] still has all
fill levels in [0,100], and after any sensor simulation (whose draws obey
the [0,100] contract of the distribution) every record's fill level is in
[0,100]. -/
theorem C6_fill_level_in_range :
    (∀ (s : Store) (binId : Int) (reqBody : Option Json) (now : String),
      fillInRange s.bins → fillInRange ((putBins s binId reqBody now).store.bins)) ∧
    (∀ (s : Store) (draw : Nat → Int) (now : String),
      (∀ i, 0 ≤ draw i ∧ draw i ≤ 100) →
      fillInRange ((collectSensorData s draw now).store.bins)) := by
  constructor
  · intro s binId reqBody now hs
    match reqBody with
    | none => exact hs
    | some body =>
      cases hfind : findBin s.bins binId with
      | none => simpa [putBins, hfind] using hs
      | some b =>
        have hbins : (putBins s binId (some body) now).store.bins =
            updateFirst s.bins binId (fun y => applyUpdate y body now) := by
          simp [putBins, hfind]
        rw [hbins]
        intro x hx
        rcases mem_updateFirst _ _ _ x hx with h | ⟨y, hy, hxy⟩
        · exact hs x h
        · rw [hxy]
          exact applyUpdate_range y body now (hs y hy)
  · intro s draw now hdraw
    match hbins : s.bins with
    | [] => simp [collectSensorData, hbins, fillInRange]
    | b :: rest =>
      have : (collectSensorData s draw now).store.bins =
          sensorUpdate draw now 0 (b :: rest) := by
        simp [collectSensorData, hbins]
      rw [this]
      intro x hx
      rcases mem_sensorUpdate draw now 0 (b :: rest) x hx with ⟨k, hk⟩
      rw [hk]
      exact hdraw k

/-- The sensor draw used by the C6 witness. -/
def c6Draw : Nat → Int := fun _ => 80

/-- Witness for C6: a PUT with the out-of-range fill level 150 on a store
in range, and a sensor pass with draw 80, both leave every fill level in
[0,100]. -/
theorem C6_fill_level_in_range_witness :
    fillInRange ((putBins ⟨[⟨1, "A", 40, false, "t1"⟩], 2⟩ 1
      (some (Json.obj [("fillLevel", Json.num 150)])) "t2").store.bins) ∧
    fillInRange ((collectSensorData ⟨[⟨1, "A", 40, false, "t1"⟩], 2⟩ c6Draw "t2").store.bins) :=
  ⟨C6_fill_level_in_range.1 ⟨[⟨1, "A", 40, false, "t1"⟩], 2⟩ 1
      (some (Json.obj [("fillLevel", Json.num 150)])) "t2" (by decide),
    C6_fill_level_in_range.2 ⟨[⟨1, "A", 40, false, "t1"⟩], 2⟩ c6Draw "t2"
      (fun i => ⟨(by decide : (0 : Int) ≤ 80), (by decide : (80 : Int) ≤ 100)⟩)⟩

/-- Membership through one stable insertion. -/
theorem specInsertDesc_mem (b : WasteBin) (l : List WasteBin) (x : WasteBin) :
    x ∈ specInsertDesc b l ↔ x ∈ b :: l := by
  induction l with
  | nil => simp [specInsertDesc]
  | cons c rest ih =>
    unfold specInsertDesc
    split
    · simp
    · simp only [List.mem_cons, ih]
      tauto

/-- One stable insertion permutes the element onto the list. -/
theorem specInsertDesc_perm (b : WasteBin) (l : List WasteBin) :
    List.Perm (specInsertDesc b l) (b :: l) := by
  induction l with
  | nil => exact List.Perm.refl _
  | cons c rest ih =>
    unfold specInsertDesc
    split
    · exact List.Perm.refl _
    · exact List.Perm.trans (List.Perm.cons c ih) (List.Perm.swap b c rest)

/-- One stable insertion keeps the list sorted by descending fill level. -/
theorem specInsertDesc_sorted (b : WasteBin) (l : List WasteBin)
    (hl : sortedByFillDesc l) : sortedByFillDesc (specInsertDesc b l) := by
  induction l with
  | nil => simp [specInsertDesc, sortedByFillDesc]
  | cons c rest ih =>
    rcases List.pairwise_cons.mp hl with ⟨hc, hrest⟩
    unfold specInsertDesc
    split
    · rename_i hcb
      refine List.pairwise_cons.mpr ⟨?_, hl⟩
      intro x hx
      rcases List.mem_cons.mp hx with h | h
      · rw [h]
        exact hcb
      · exact le_trans (hc x h) hcb
    · rename_i hcb
      push_neg at hcb
      refine List.pairwise_cons.mpr ⟨?_, ih hrest⟩
      intro x hx
      rcases List.mem_cons.mp ((specInsertDesc_mem b rest x).mp hx) with h | h
      · rw [h]
        exact le_of_lt hcb
      · exact hc x h

/-- The spec-side stable sort is a permutation of its input. -/
theorem specStableSortDesc_perm (l : List WasteBin) :
    List.Perm (specStableSortDesc l) l := by
  induction l with
  | nil => exact List.Perm.refl _
  | cons b rest ih =>
    exact List.Perm.trans (specInsertDesc_perm b (specStableSortDesc rest))
      (List.Perm.cons b ih)

/-- The spec-side stable sort is sorted by descending fill level. -/
theorem specStableSortDesc_sorted (l : List WasteBin) :
    sortedByFillDesc (specStableSortDesc l) := by
  induction l with
  | nil => simp [specStableSortDesc, sortedByFillDesc]
  | cons b rest ih => exact specInsertDesc_sorted b (specStableSortDesc rest) ih

/-- Counterexample to C4's stability clause: with two tied records that
both need collection, the reversed order satisfies everything `std::sort`
guarantees for the route, yet it differs from the tie-stable order the
claim requires, so the handler's output is not determined to be the
tie-stable one. -/
theorem C4_unstable_tie_cex :
    computeRouteRel [⟨1, "A", 50, true, "t"⟩, ⟨2, "B", 50, true, "t"⟩]
      [⟨2, "B", 50, true, "t"⟩, ⟨1, "A", 50, true, "t"⟩] ∧
    [⟨2, "B", 50, true, "t"⟩, ⟨1, "A", 50, true, "t"⟩] ≠
      specStableSortDesc (routeCandidates [⟨1, "A", 50, true, "t"⟩, ⟨2, "B", 50, true, "t"⟩]) ∧
    specStableSortDesc (routeCandidates [⟨1, "A", 50, true, "t"⟩, ⟨2, "B", 50, true, "t"⟩]) =
      [⟨1, "A", 50, true, "t"⟩, ⟨2, "B", 50, true, "t"⟩] :=
  ⟨⟨by decide, by decide⟩, by decide, by decide⟩

/-- C4 amended: every route the handler can produce consists of exactly
the records with needsCollection = true, sorted by fill level descending;
such a route always exists (the stable sort of the candidates is one), but
the relative order of records with equal fill levels is unspecified —
`std::sort` is not stable. -/
theorem C4_route_filter_sorted (bins : List WasteBin) :
    computeRouteRel bins (specStableSortDesc (routeCandidates bins)) ∧
    ∀ out, computeRouteRel bins out →
      (∀ b ∈ out, b.needsCollection = true) ∧
      (∀ b ∈ bins, b.needsCollection = true → b ∈ out) ∧
      sortedByFillDesc out := by
  constructor
  · exact ⟨specStableSortDesc_perm _, specStableSortDesc_sorted _⟩
  · intro out hrel
    rcases hrel with ⟨hperm, hsort⟩
    refine ⟨?_, ?_, hsort⟩
    · intro b hb
      have hmem : b ∈ routeCandidates bins := hperm.mem_iff.mp hb
      simpa using (List.mem_filter.mp hmem).2
    · intro b hb hneed
      exact hperm.mem_iff.mpr (List.mem_filter.mpr ⟨hb, by simpa using hneed⟩)

/-- Witness for the amended C4 at the counterexample route. -/
theorem C4_route_filter_sorted_witness :
    (∀ b ∈ ([⟨2, "B", 50, true, "t"⟩, ⟨1, "A", 50, true, "t"⟩] : List WasteBin),
      b.needsCollection = true) ∧
    sortedByFillDesc [⟨2, "B", 50, true, "t"⟩, ⟨1, "A", 50, true, "t"⟩] := by
  have h := (C4_route_filter_sorted [⟨1, "A", 50, true, "t"⟩, ⟨2, "B", 50, true, "t"⟩]).2
    [⟨2, "B", 50, true, "t"⟩, ⟨1, "A", 50, true, "t"⟩] ⟨by decide, by decide⟩
  exact ⟨h.1, h.2.2⟩

/-- A create request appends the new record and advances the counter. -/
theorem applyOp_create_store (s : Store) (loc now : String) :
    (applyOp s (Op.create loc now)).store =
      ⟨s.bins ++ [⟨s.nextId, loc, 0, false, now⟩], s.nextId + 1⟩ := rfl

/-- A create request reports exactly the id it assigned: the counter. -/
theorem applyOp_create_ids (s : Store) (loc now : String) :
    responseIds (applyOp s (Op.create loc now)) = [s.nextId] := rfl

/-- Unfolding one step of the delete scan. -/
theorem eraseFirstBin_cons (b : WasteBin) (rest : List WasteBin) (binId : Int) :
    eraseFirstBin (b :: rest) binId =
      if b.id = binId then (rest, true)
      else (b :: (eraseFirstBin rest binId).1, (eraseFirstBin rest binId).2) := by
  conv_lhs => unfold eraseFirstBin

/-- A delete that removes nothing reconstructs the list unchanged. -/
theorem eraseFirstBin_not_found (l : List WasteBin) (binId : Int)
    (h : (eraseFirstBin l binId).2 = false) : (eraseFirstBin l binId).1 = l := by
  induction l with
  | nil => rfl
  | cons b rest ih =>
    rw [eraseFirstBin_cons] at h ⊢
    by_cases hb : b.id = binId
    · rw [if_pos hb] at h
      cases h
    · rw [if_neg hb] at h ⊢
      simp only at h ⊢
      rw [ih h]

/-- Whatever a delete leaves behind was already in the store. -/
theorem mem_eraseFirstBin (l : List WasteBin) (binId : Int) (x : WasteBin)
    (hx : x ∈ (eraseFirstBin l binId).1) : x ∈ l := by
  induction l with
  | nil => simp [eraseFirstBin] at hx
  | cons b rest ih =>
    rw [eraseFirstBin_cons] at hx
    by_cases hb : b.id = binId
    · rw [if_pos hb] at hx
      exact List.mem_cons_of_mem b hx
    · rw [if_neg hb] at hx
      simp only [List.mem_cons] at hx
      rcases hx with h | h
      · simp [h]
      · exact List.mem_cons_of_mem b (ih h)

/-- A delete request removes the first matching record and keeps the
counter. -/
theorem applyOp_del_store (s : Store) (binId : Int) :
    (applyOp s (Op.del binId)).store = ⟨(eraseFirstBin s.bins binId).1, s.nextId⟩ := by
  show (deleteBins s binId).store = ⟨(eraseFirstBin s.bins binId).1, s.nextId⟩
  unfold deleteBins
  rcases h : eraseFirstBin s.bins binId with ⟨newBins, flag⟩
  cases flag
  · have heq : newBins = s.bins := by
      have h2 := eraseFirstBin_not_found s.bins binId (by rw [h])
      rw [h] at h2
      exact h2
    dsimp only
    rw [heq]
  · dsimp only

/-- Envelopes without a data field report no created ids. -/
theorem responseIds_null_data (st : Nat) (s2 : Store) (sv : Bool)
    (succ : Bool) (msg : String) :
    responseIds ⟨st, s2, sv, createApiResponse succ msg Json.null⟩ = [] := rfl

/-- A delete request reports no created ids. -/
theorem applyOp_del_ids (s : Store) (binId : Int) :
    responseIds (applyOp s (Op.del binId)) = [] := by
  show responseIds (deleteBins s binId) = []
  unfold deleteBins
  rcases h : eraseFirstBin s.bins binId with ⟨newBins, flag⟩
  cases flag
  · exact responseIds_null_data _ _ _ _ _
  · exact responseIds_null_data _ _ _ _ _

/-- Unfolding one step of a run. -/
theorem runOps_cons (s : Store) (op : Op) (rest : List Op) :
    runOps s (op :: rest) =
      ((runOps (applyOp s op).store rest).1,
        responseIds (applyOp s op) ++ (runOps (applyOp s op).store rest).2) := rfl

/-- A run splits at any point: the second half starts from the mid store
and the reported ids concatenate. -/
theorem runOps_append (s : Store) (xs ys : List Op) :
    runOps s (xs ++ ys) =
      ((runOps (runOps s xs).1 ys).1,
        (runOps s xs).2 ++ (runOps (runOps s xs).1 ys).2) := by
  induction xs generalizing s with
  | nil => simp [runOps]
  | cons op rest ih =>
    simp only [List.cons_append, runOps_cons, ih, List.append_assoc]

/-- No request ever decreases the counter. -/
theorem applyOp_nextId (s : Store) (op : Op) :
    s.nextId ≤ (applyOp s op).store.nextId := by
  cases op with
  | create loc now =>
    rw [applyOp_create_store]
    simp
  | del binId =>
    rw [applyOp_del_store]

/-- The counter never decreases along a run. -/
theorem runOps_nextId_mono (ops : List Op) : ∀ s : Store,
    s.nextId ≤ (runOps s ops).1.nextId := by
  induction ops with
  | nil => intro s; exact le_refl _
  | cons op rest ih =>
    intro s
    rw [runOps_cons]
    exact le_trans (applyOp_nextId s op) (ih (applyOp s op).store)

/-- Every id a run reports as created is at least the starting counter and
below the final counter. -/
theorem runOps_ids_bounds (ops : List Op) : ∀ (s : Store) (i : Int),
    i ∈ (runOps s ops).2 → s.nextId ≤ i ∧ i < (runOps s ops).1.nextId := by
  induction ops with
  | nil => intro s i hi; simp [runOps] at hi
  | cons op rest ih =>
    intro s i hi
    rw [runOps_cons] at hi ⊢
    dsimp only at hi ⊢
    rcases List.mem_append.mp hi with h | h
    · cases op with
      | create loc now =>
        rw [applyOp_create_ids] at h
        have hieq : i = s.nextId := by simpa using h
        subst hieq
        have h1 : (applyOp s (Op.create loc now)).store.nextId = s.nextId + 1 := by
          rw [applyOp_create_store]
        have h2 := runOps_nextId_mono rest (applyOp s (Op.create loc now)).store
        exact ⟨le_refl _, by omega⟩
      | del binId =>
        rw [applyOp_del_ids] at h
        simp at h
    · have h2 := ih (applyOp s op).store i h
      exact ⟨le_trans (applyOp_nextId s op) h2.1, h2.2⟩

/-- The created ids of a run are strictly increasing in request order. -/
theorem runOps_ids_pairwise (ops : List Op) : ∀ s : Store,
    List.Pairwise (fun a b : Int => a < b) (runOps s ops).2 := by
  induction ops with
  | nil => intro s; simp [runOps]
  | cons op rest ih =>
    intro s
    rw [runOps_cons]
    cases op with
    | create loc now =>
      rw [applyOp_create_ids, List.singleton_append]
      refine List.pairwise_cons.mpr ⟨?_, ih (applyOp s (Op.create loc now)).store⟩
      intro i hi
      have hb := runOps_ids_bounds rest (applyOp s (Op.create loc now)).store i hi
      have h1 : (applyOp s (Op.create loc now)).store.nextId = s.nextId + 1 := by
        rw [applyOp_create_store]
      omega
    | del binId =>
      rw [applyOp_del_ids, List.nil_append]
      exact ih (applyOp s (Op.del binId)).store

/-- One request keeps every stored id below the counter. -/
theorem applyOp_inv (s : Store) (op : Op) (h : idsBelowCounter s) :
    idsBelowCounter (applyOp s op).store := by
  cases op with
  | create loc now =>
    rw [applyOp_create_store]
    intro b hb
    rcases List.mem_append.mp hb with h1 | h1
    · have := h b h1
      simp only
      omega
    · have hbeq : b = ⟨s.nextId, loc, 0, false, now⟩ := by simpa using h1
      rw [hbeq]
      simp
  | del binId =>
    rw [applyOp_del_store]
    intro b hb
    exact h b (mem_eraseFirstBin s.bins binId b hb)

/-- A run keeps every stored id below the counter. -/
theorem runOps_inv (ops : List Op) : ∀ s : Store, idsBelowCounter s →
    idsBelowCounter (runOps s ops).1 := by
  induction ops with
  | nil => intro s h; exact h
  | cons op rest ih =>
    intro s h
    rw [runOps_cons]
    exact ih (applyOp s op).store (applyOp_inv s op h)

/-- C3: from any store whose ids are all below the counter (as a load
guarantees), the ids assigned by the creates of a request sequence are
strictly increasing in request order — hence unique — and an id that a
delete removed from the store is never assigned by any later create of the
sequence. -/
theorem C3_ids_increase_never_reused (s : Store) (hInv : idsBelowCounter s)
    (ops : List Op) :
    List.Pairwise (fun a b : Int => a < b) (runOps s ops).2 ∧
    ∀ (pre : List Op) (d : Int) (post : List Op),
      ops = pre ++ Op.del d :: post →
      d ∈ (runOps s pre).1.bins.map (fun b => b.id) →
      d ∉ (runOps (runOps s (pre ++ [Op.del d])).1 post).2 := by
  refine ⟨runOps_ids_pairwise ops s, ?_⟩
  intro pre d post hops hd hmem
  rcases List.mem_map.mp hd with ⟨b, hb, hbid⟩
  have h1 : idsBelowCounter (runOps s pre).1 := runOps_inv pre s hInv
  have h2 : b.id < (runOps s pre).1.nextId := h1 b hb
  have h3 : (runOps s (pre ++ [Op.del d])).1.nextId = (runOps s pre).1.nextId := by
    rw [runOps_append]
    show (runOps (applyOp (runOps s pre).1 (Op.del d)).store []).1.nextId = _
    rw [applyOp_del_store]
    rfl
  have h4 := runOps_ids_bounds post (runOps s (pre ++ [Op.del d])).1 d hmem
  omega

/-- Witness for C3: create, create, delete 2, create assigns 1, 2, 3 in
strictly increasing order, and id 2 is not assigned again after its
deletion. -/
theorem C3_ids_increase_never_reused_witness :
    List.Pairwise (fun a b : Int => a < b)
      (runOps ⟨[], 1⟩
        [Op.create "A" "t1", Op.create "B" "t2", Op.del 2, Op.create "C" "t3"]).2 ∧
    2 ∉ (runOps (runOps ⟨[], 1⟩
      [Op.create "A" "t1", Op.create "B" "t2", Op.del 2]).1 [Op.create "C" "t3"]).2 := by
  have h := C3_ids_increase_never_reused ⟨[], 1⟩ (by decide)
    [Op.create "A" "t1", Op.create "B" "t2", Op.del 2, Op.create "C" "t3"]
  exact ⟨h.1, h.2 [Op.create "A" "t1", Op.create "B" "t2"] 2 [Op.create "C" "t3"]
    rfl (by decide)⟩
